import Mathlib

/-!
# Verification of the radarsci core pipeline

A shallow embedding of the core of the `radarsci` repository
(`src/radarsci/relevance.py`, `src/radarsci/cli.py`,
`src/radarsci/fetcher.py`, `src/radarsci/reporting.py`,
`src/radarsci/models.py`) together with theorems settling the frozen
claims about it.

Modelling conventions:
* Python `float` values are modelled as `ℚ`.  `round(x, 2)` is modelled as
  `round (x * 100) / 100` with Mathlib's `round` (round half up); Python
  rounds floats half to even, but no value appearing in the claims sits on
  a half-cent tie, so the two agree everywhere they are compared.
* Python `datetime` instants are modelled as integer seconds; the
  whole-day difference `(now - published).days` is floor division by
  86400, exactly as Python's `timedelta.days` floors.
* Python `str.strip()` is modelled on the six ASCII whitespace
  characters (Python additionally strips Unicode whitespace, which no
  claim exercises); `str.lower()` is `Char.toLower` characterwise.
* Python's stable `sorted` with a lexicographic key tuple is modelled as
  `List.mergeSort` (stable) with the comparator `key p ≤ key q` on a
  `Lex` product, which induces the same total preorder.
-/

/-! ## String helpers (Python `str` semantics) -/

/-- The ASCII whitespace characters stripped by Python's `str.strip()`. -/
def pyWhitespace (c : Char) : Bool :=
  c = ' ' || c = '\t' || c = '\n' || c = '\x0b' || c = '\x0c' || c = '\r'

/-- Python `s.strip()`: remove leading and trailing whitespace. -/
def pyStrip (s : String) : String :=
  String.mk (((s.data.dropWhile pyWhitespace).reverse.dropWhile pyWhitespace).reverse)

/-- Python `s.lower()`, characterwise. -/
def pyLower (s : String) : String :=
  String.mk (s.data.map Char.toLower)

/-- Fuel-driven worker for `pyCount`.  At each position, a match of the
(nonempty) needle consumes the whole match (non-overlapping counting, as
Python's `str.count`), otherwise one character is consumed.  With
`fuel ≥` the haystack length this computes the exact count; the fuel only
makes the recursion structural. -/
def pyCountAux (needle : List Char) : Nat → List Char → Nat
  | 0, _ => 0
  | _ + 1, [] => 0
  | fuel + 1, c :: rest =>
    if needle.isPrefixOf (c :: rest) then
      1 + pyCountAux needle fuel ((c :: rest).drop needle.length)
    else
      pyCountAux needle fuel rest

/-- Python `hay.count(needle)` for a nonempty needle: the number of
non-overlapping occurrences of `needle` in `hay`. -/
def pyCount (hay needle : String) : Nat :=
  pyCountAux needle.data hay.data.length hay.data

/-! ## Data model (`models.py`) -/

/-- `JournalConfig` from `models.py`: an immutable search target. -/
structure JournalConfig where
  key : String
  name : String
  container_title : String
deriving DecidableEq

/-- `Paper` from `models.py`: the normalised representation of an article.
`published` is an instant in integer seconds, `relevance` and
`source_score` are `ℚ` in place of `float`. -/
structure Paper where
  journal : String
  title : String
  url : String
  published : Option ℤ
  authors : List String := []
  summary : Option String := none
  relevance : ℚ := 0
  source_score : Option ℚ := none
  age_days : Option ℕ := none
  match_count : ℕ := 0
deriving DecidableEq

/-! ## Relevance scoring (`relevance.py`, `compute_relevance`) -/

/-- Python `round(q, 2)`: round to two decimal places.  Mathlib's `round`
is round half up; Python's float rounding is half to even, but no claim
value lies on a tie. -/
def round2 (q : ℚ) : ℚ := (round (q * 100) : ℚ) / 100

/-- The per-keyword hit counts of `compute_relevance`: for a keyword whose
`lower().strip()` is nonempty, the pair `(title_hits, body_hits)` of
substring counts in the lowercased title and in the lowercased
title-plus-summary haystack; an empty target is skipped (`continue`). -/
def keywordHits (title text : String) (keyword : String) : Option (ℕ × ℕ) :=
  let target := pyStrip (pyLower keyword)
  if target = "" then none
  else some (pyCount title target, pyCount text target)

/-- Score contribution of one keyword's hit pair:
`if title_hits: score += 6.0 * title_hits` and
`if body_hits: score += 2.5 * body_hits`. -/
def hitScore (tb : ℕ × ℕ) : ℚ :=
  (if tb.1 ≠ 0 then 6 * (tb.1 : ℚ) else 0) + (if tb.2 ≠ 0 then 5 / 2 * (tb.2 : ℚ) else 0)

/-- `if title_hits or body_hits: matched_keywords += 1`. -/
def matchedHit (tb : ℕ × ℕ) : Bool :=
  decide (tb.1 ≠ 0) || decide (tb.2 ≠ 0)

/-- `if paper.source_score: score += float(paper.source_score) / 10.0`:
a present, nonzero source hint contributes a tenth of its value. -/
def sourcePart (source_score : Option ℚ) : ℚ :=
  match source_score with
  | some s => if s ≠ 0 then s / 10 else 0
  | none => 0

/-- The recency contribution of `compute_relevance` for a known age:
`freshness * 6.0 + decay * 4.0` with `window = max(recency_window, 30)`,
`freshness = max(0, (window - min(age_days, window)) / window)` and
`decay = 1 / (1 + age_days)`; an unknown age contributes nothing. -/
def recencyPart (age_days : Option ℕ) (recency_window : ℤ) : ℚ :=
  match age_days with
  | some a =>
    let window : ℤ := max recency_window 30
    let freshness : ℚ := max 0 ((((window - min (a : ℤ) window) : ℤ) : ℚ) / (window : ℚ))
    let decay : ℚ := 1 / (1 + (a : ℚ))
    freshness * 6 + decay * 4
  | none => 0

/-- The raw (unrounded) score accumulated by `compute_relevance`, as a
function of the per-keyword hit pairs, the source score hint, the computed
age and the recency window.  The keyword loop's accumulation is the sum of
the per-keyword contributions; `if matched_keywords:` adds
`4.0 * matched_keywords`. -/
def rawScore (hits : List (ℕ × ℕ)) (source_score : Option ℚ)
    (age_days : Option ℕ) (recency_window : ℤ) : ℚ :=
  let keyword_score := (hits.map hitScore).sum
  let matched := (hits.filter matchedHit).length
  let match_part : ℚ := if matched ≠ 0 then 4 * (matched : ℚ) else 0
  keyword_score + sourcePart source_score + match_part + recencyPart age_days recency_window

/-- The `age_days` computation of `compute_relevance`: the whole-day
difference `(now - published).days` when `published` is present, kept only
when nonnegative (future-dated articles get `none`). -/
def ageDaysOf (published : Option ℤ) (reference : ℤ) : Option ℕ :=
  match published with
  | none => none
  | some t =>
    let d := Int.fdiv (reference - t) 86400
    if 0 ≤ d then some d.toNat else none

/-- `compute_relevance(paper, keywords, recency_window, reference)` from
`relevance.py`, with the in-place mutation rendered as a functional update
of the three derived fields.  `text` is the lowercased
`title + " " + (summary or "")` haystack and `title` the lowercased
title. -/
def compute_relevance (paper : Paper) (keywords : List String)
    (recency_window : ℤ) (reference : ℤ) : Paper :=
  let text := pyLower (paper.title ++ " " ++ paper.summary.getD "")
  let title := pyLower paper.title
  let hits := keywords.filterMap (keywordHits title text)
  let age := ageDaysOf paper.published reference
  { paper with
      age_days := age
      match_count := (hits.filter matchedHit).length
      relevance := round2 (rawScore hits paper.source_score age recency_window) }

/-! ## Coverage classification (`cli.py` `_coverage_level` and
`reporting.py` `_coverage_level`) -/

/-- `_coverage_level(paper, total_keywords)` from `cli.py` (the classifier
used for selection), as a function of `paper.match_count` and
`total_keywords`. -/
def coverage_level (match_count total_keywords : ℤ) : String :=
  if total_keywords ≤ 0 then
    if match_count > 0 then "full" else "single"
  else
    let matched := max 0 match_count
    if matched ≥ total_keywords then "full"
    else if total_keywords > 2 ∧ matched ≥ total_keywords - 1 then "near"
    else if matched ≥ 2 then "partial"
    else if matched ≥ 1 then "single"
    else "single"

/-- `_coverage_level(paper, total_keywords)` from `reporting.py` (the
classifier used for report rendering). -/
def reporting_coverage_level (match_count total_keywords : ℤ) : String :=
  if total_keywords ≤ 0 then "unmatched"
  else
    let matched := max 0 match_count
    if matched ≥ total_keywords then "full"
    else if total_keywords > 2 ∧ matched ≥ total_keywords - 1 then "near"
    else if matched ≥ 2 then "partial"
    else if matched ≥ 1 then "single"
    else "unmatched"

/-- The bucket order of `_bucket_by_coverage` in `cli.py`. -/
def coverageLevels : List String := ["full", "near", "partial", "single"]

/-! ## Post-fetch filtering (`cli.py`, `radar`, lines 257–267) -/

/-- The retention predicate of the post-scoring filter loop in `radar`:
keep a paper unless its `url` is empty, or a positive day-window was
requested and its known age exceeds it, or its `match_count` is zero. -/
def keepPaper (days : ℤ) (p : Paper) : Bool :=
  !(decide (p.url = "")) &&
    !(decide (days > 0) &&
      (match p.age_days with
       | some a => decide ((a : ℤ) > days)
       | none => false)) &&
    !(decide (p.match_count = 0))

/-- The post-scoring filter of `radar` (`filtered = [...]`). -/
def post_filter (days : ℤ) (papers : List Paper) : List Paper :=
  papers.filter (keepPaper days)

/-! ## Sorting (`cli.py`, `_sort_papers`) -/

inductive SortStrategy
  | score
  | recency
  | journal
deriving DecidableEq

/-- `age_value(paper)` inside `_sort_papers`: the known age, or the
sentinel `10 ** 6` when the age is unknown. -/
def age_value (p : Paper) : ℕ :=
  match p.age_days with
  | some a => a
  | none => 10 ^ 6

/-- The `SCORE` sort key `(-p.relevance, age_value(p), p.title.lower())`,
compared lexicographically. -/
def scoreKey (p : Paper) : Lex (ℚ × Lex (ℕ × List Char)) :=
  toLex (-p.relevance, toLex (age_value p, (pyLower p.title).data))

/-- The `RECENCY` sort key `(age_value(p), -p.relevance, p.title.lower())`. -/
def recencyKey (p : Paper) : Lex (ℕ × Lex (ℚ × List Char)) :=
  toLex (age_value p, toLex (-p.relevance, (pyLower p.title).data))

/-- The `JOURNAL` sort key `(p.journal.lower(), -p.relevance, age_value(p))`. -/
def journalKey (p : Paper) : Lex (List Char × Lex (ℚ × ℕ)) :=
  toLex ((pyLower p.journal).data, toLex (-p.relevance, age_value p))

/-- The comparator induced by the chosen strategy's key tuple. -/
def paperLe (strategy : SortStrategy) (p q : Paper) : Bool :=
  match strategy with
  | .score => decide (scoreKey p ≤ scoreKey q)
  | .recency => decide (recencyKey p ≤ recencyKey q)
  | .journal => decide (journalKey p ≤ journalKey q)

/-- `_sort_papers(papers, strategy)` from `cli.py`: Python's stable
`sorted` under the strategy's key, modelled as a stable merge sort under
the key order. -/
def sort_papers (papers : List Paper) (strategy : SortStrategy) : List Paper :=
  papers.mergeSort (paperLe strategy)

/-! ## Selection (`cli.py`, `radar`, lines 273–293)

The selection walks Python object references and deduplicates by `id(p)`;
the embedding makes the identity explicit as a function `idf` into `ℕ`.
In a run of the program distinct list slots hold distinct objects, so the
identities along the candidate list are pairwise distinct. -/

/-- The strict (`--coverage full`) branch:
`coverage_buckets.get("full", [])[:max_results]`, where the `"full"`
bucket lists the candidates classified `"full"` in candidate order. -/
def select_strict {α : Type} (lv : α → String) (ordered : List α) (limit : ℕ) : List α :=
  (ordered.filter (fun p => decide (lv p = "full"))).take limit

/-- The seeding loop of the diversified branch: for each level in bucket
order, if that bucket is nonempty and capacity remains, append the
bucket's head (`bucket.pop(0)`). -/
def seedSelection {α : Type} (lv : α → String) (ordered : List α) (limit : ℕ) :
    List String → List α → List α
  | [], sel => sel
  | L :: Ls, sel =>
    let bucket := ordered.filter (fun p => decide (lv p = L))
    seedSelection lv ordered limit Ls
      (match bucket with
       | [] => sel
       | b :: _ => if sel.length < limit then sel ++ [b] else sel)

/-- The fill loop of the diversified branch: walk the sorted candidate
list, stop at capacity, and append any candidate whose identity was not
already selected (`if id(paper) in seen: continue`). -/
def fillSelection {α : Type} (idf : α → ℕ) (limit : ℕ) : List α → List α → List α
  | [], sel => sel
  | p :: rest, sel =>
    if limit ≤ sel.length then sel
    else if idf p ∈ sel.map idf then fillSelection idf limit rest sel
    else fillSelection idf limit rest (sel ++ [p])

/-- The diversified (`--coverage all`) branch of `radar`: seed with at
most one candidate per coverage bucket, then fill remaining slots from
the overall ordering. -/
def select_diversified {α : Type} (idf : α → ℕ) (lv : α → String)
    (ordered : List α) (limit : ℕ) : List α :=
  fillSelection idf limit ordered (seedSelection lv ordered limit coverageLevels [])

/-! ## Query building (`fetcher.py`, `_build_query`) -/

/-- The quoting loop of `_build_query`: each keyword is stripped; an empty
result is skipped; a term containing a space character (`" " in term`) is
wrapped in double quotes; any other term is kept bare. -/
def quotedTerms (keywords : List String) : List String :=
  keywords.filterMap (fun keyword =>
    let term := pyStrip keyword
    if term = "" then none
    else if ' ' ∈ term.data then some ("\"" ++ term ++ "\"")
    else some term)

/-- Proleptic-Gregorian civil date from a day count relative to
1970-01-01 (the classic civil-from-days conversion), used to render the
`FIRST_PDATE` range exactly as Python formats `datetime.date`. -/
def civilFromDays (z0 : ℤ) : ℤ × ℤ × ℤ :=
  let z := z0 + 719468
  let era := Int.fdiv z 146097
  let doe := z - era * 146097
  let yoe := Int.fdiv (doe - Int.fdiv doe 1460 + Int.fdiv doe 36524 - Int.fdiv doe 146096) 365
  let y := yoe + era * 400
  let doy := doe - (365 * yoe + Int.fdiv yoe 4 - Int.fdiv yoe 100)
  let mp := Int.fdiv (5 * doy + 2) 153
  let d := doy - Int.fdiv (153 * mp + 2) 5 + 1
  let m := mp + (if mp < 10 then 3 else -9)
  (y + (if m ≤ 2 then 1 else 0), m, d)

/-- Left-pad the decimal rendering of a nonnegative integer with zeros. -/
def padNum (width : ℕ) (n : ℤ) : String :=
  let s := toString n.toNat
  String.mk (List.replicate (width - s.length) '0') ++ s

/-- `str(datetime.date)`: ISO `YYYY-MM-DD` rendering of a day count. -/
def isoDate (days : ℤ) : String :=
  let c := civilFromDays days
  padNum 4 c.1 ++ "-" ++ padNum 2 c.2.1 ++ "-" ++ padNum 2 c.2.2

/-- `_build_query(journal, keywords, days_back)` from `fetcher.py`,
parametrised by `today`, the current UTC date as a day count (the code
reads `datetime.now(tz=UTC).date()`).  The `ValueError` raised when no
usable keyword remains is modelled as `Except.error`. -/
def build_query (journal : JournalConfig) (keywords : List String)
    (days_back : ℤ) (today : ℤ) : Except String String :=
  let terms := quotedTerms keywords
  match terms with
  | [] => .error "At least one keyword is required."
  | [t] => .ok (buildRest t journal days_back today)
  | ts => .ok (buildRest ("(" ++ String.intercalate " OR " ts ++ ")") journal days_back today)
where
  /-- The shared tail of `_build_query`: the journal-scoping clause and,
  for `days_back > 0`, the closed `FIRST_PDATE` range
  `[today - days_back, today]`, joined by spaces. -/
  buildRest (keyword_query : String) (journal : JournalConfig)
      (days_back : ℤ) (today : ℤ) : String :=
    let journal_clause := "JOURNAL:" ++ "\"" ++ journal.container_title ++ "\""
    let segments :=
      if days_back > 0 then
        [keyword_query, journal_clause,
         "FIRST_PDATE:[" ++ isoDate (today - days_back) ++ " TO " ++ isoDate today ++ "]"]
      else
        [keyword_query, journal_clause]
    String.intercalate " " segments

/-! ## Concrete instances used by witnesses and counterexamples -/

/-- An article with two matched keywords. -/
def twoMatchPaper : Paper :=
  { journal := "j", title := "t", url := "u", published := none, match_count := 2 }

/-- The scenario article of the spec: title `"Metagenomics of the gut"`,
empty summary, no source hint, published at instant `0`. -/
def gutPaper : Paper :=
  { journal := "Nature", title := "Metagenomics of the gut", url := "u", published := some 0 }

/-- The reference instant of the scenario: exactly 10 whole days after
`gutPaper`'s publication instant. -/
def gutReference : ℤ := 10 * 86400

/-- A reference instant `10 ** 6 + 1` whole days after instant `0`
(reachable: Python dates span years 1–9999, about 3.65 million days). -/
def farReference : ℤ := 1000001 * 86400

/-- An article published at instant `0`: scored against `farReference` its
age is `10 ** 6 + 1` days, exceeding the unknown-age sentinel `10 ** 6`. -/
def veryOldPaper : Paper :=
  { journal := "j", title := "a", url := "u", published := some 0 }

/-- An article with no publication date: its age is unknown. -/
def undatedPaper : Paper :=
  { journal := "j", title := "b", url := "u", published := none }

/-- Four articles covering the four tiers against four keywords. -/
def tierPapers : List Paper :=
  [{ journal := "j", title := "t4", url := "u", published := none, match_count := 4 },
   { journal := "j", title := "t3", url := "u", published := none, match_count := 3 },
   { journal := "j", title := "t2", url := "u", published := none, match_count := 2 },
   { journal := "j", title := "t1", url := "u", published := none, match_count := 1 }]

/-- An article that survives the post-fetch filter. -/
def keptPaper : Paper :=
  { journal := "j", title := "t", url := "u", published := none, match_count := 1 }

/-- An article with a known age of 5 days. -/
def agedPaper : Paper :=
  { journal := "j", title := "t", url := "u", published := none, age_days := some 5 }

/-! ## Helper lemmas -/

theorem mergeSort_pair {α : Type} (le : α → α → Bool) (a b : α) :
    List.mergeSort [a, b] le = if le a b then [a, b] else [b, a] := by
  rw [List.mergeSort.eq_3]
  simp [List.splitInTwo_fst, List.splitInTwo_snd, List.mergeSort_singleton]
  by_cases h : le a b <;>
    simp [h, List.cons_merge_cons, List.nil_merge, List.merge_right]

theorem hitScore_eq (tb : ℕ × ℕ) : hitScore tb = 6 * (tb.1 : ℚ) + 5 / 2 * (tb.2 : ℚ) := by
  obtain ⟨t, b⟩ := tb
  by_cases ht : t = 0 <;> by_cases hb : b = 0 <;> simp [hitScore, ht, hb]

theorem ite_ne_zero_four_mul (m : ℕ) :
    (if m ≠ 0 then 4 * (m : ℚ) else 0) = 4 * (m : ℚ) := by
  by_cases h : m = 0 <;> simp [h]

theorem round2_add_cent (x : ℚ) (n : ℤ) :
    round2 (x + (n : ℚ) / 100) = round2 x + (n : ℚ) / 100 := by
  unfold round2
  have h : (x + (n : ℚ) / 100) * 100 = x * 100 + (n : ℚ) := by ring
  rw [h, round_add_int]
  push_cast
  ring

theorem rawScore_eq (hits : List (ℕ × ℕ)) (ss : Option ℚ) (ad : Option ℕ) (w : ℤ) :
    rawScore hits ss ad w =
      (hits.map hitScore).sum + sourcePart ss +
        4 * ((hits.filter matchedHit).length : ℚ) + recencyPart ad w := by
  by_cases h : (hits.filter matchedHit).length = 0 <;> simp [rawScore, h]

theorem rawScore_update (pre post : List (ℕ × ℕ)) (x y : ℕ × ℕ)
    (ss : Option ℚ) (ad : Option ℕ) (w : ℤ) :
    rawScore (pre ++ x :: post) ss ad w =
      rawScore (pre ++ y :: post) ss ad w + (hitScore x - hitScore y) +
        4 * ((if matchedHit x then (1 : ℚ) else 0) - (if matchedHit y then (1 : ℚ) else 0)) := by
  rw [rawScore_eq, rawScore_eq]
  by_cases hx : matchedHit x <;> by_cases hy : matchedHit y <;>
    simp [List.filter_append, List.filter_cons, hx, hy] <;>
    push_cast <;> ring

theorem fillSelection_extends {α : Type} (idf : α → ℕ) (limit : ℕ) :
    ∀ (rest sel : List α), sel <+: fillSelection idf limit rest sel := by
  intro rest
  induction rest with
  | nil => intro sel; exact List.prefix_refl sel
  | cons p rest ih =>
    intro sel
    show (if limit ≤ sel.length then sel
      else if idf p ∈ sel.map idf then fillSelection idf limit rest sel
      else fillSelection idf limit rest (sel ++ [p])) |> (sel <+: ·)
    split
    · exact List.prefix_refl sel
    · split
      · exact ih sel
      · exact List.prefix_append sel [p] |>.trans (ih (sel ++ [p]))

theorem fillSelection_length {α : Type} (idf : α → ℕ) (limit : ℕ) :
    ∀ (rest sel : List α), sel.length ≤ limit →
      (fillSelection idf limit rest sel).length ≤ limit := by
  intro rest
  induction rest with
  | nil => intro sel h; exact h
  | cons p rest ih =>
    intro sel h
    show (if limit ≤ sel.length then sel
      else if idf p ∈ sel.map idf then fillSelection idf limit rest sel
      else fillSelection idf limit rest (sel ++ [p])).length ≤ limit
    split
    · exact h
    · split
      · exact ih sel h
      · refine ih (sel ++ [p]) ?_
        have : sel.length < limit := by omega
        simp only [List.length_append, List.length_singleton]
        omega

theorem fillSelection_mem {α : Type} (idf : α → ℕ) (limit : ℕ) :
    ∀ (rest sel : List α) (x : α), x ∈ fillSelection idf limit rest sel →
      x ∈ sel ∨ x ∈ rest := by
  intro rest
  induction rest with
  | nil => intro sel x hx; exact Or.inl hx
  | cons p rest ih =>
    intro sel x hx
    rw [show fillSelection idf limit (p :: rest) sel =
        (if limit ≤ sel.length then sel
         else if idf p ∈ sel.map idf then fillSelection idf limit rest sel
         else fillSelection idf limit rest (sel ++ [p])) from rfl] at hx
    split at hx
    · exact Or.inl hx
    · split at hx
      · rcases ih sel x hx with h | h
        · exact Or.inl h
        · exact Or.inr (List.mem_cons_of_mem p h)
      · rcases ih (sel ++ [p]) x hx with h | h
        · rcases List.mem_append.mp h with h | h
          · exact Or.inl h
          · simp only [List.mem_singleton] at h
            exact Or.inr (h ▸ List.mem_cons_self p rest)
        · exact Or.inr (List.mem_cons_of_mem p h)

theorem fillSelection_nodup {α : Type} (idf : α → ℕ) (limit : ℕ) :
    ∀ (rest sel : List α), (sel.map idf).Nodup →
      ((fillSelection idf limit rest sel).map idf).Nodup := by
  intro rest
  induction rest with
  | nil => intro sel h; exact h
  | cons p rest ih =>
    intro sel h
    show ((if limit ≤ sel.length then sel
      else if idf p ∈ sel.map idf then fillSelection idf limit rest sel
      else fillSelection idf limit rest (sel ++ [p])).map idf).Nodup
    split
    · exact h
    · split
      · exact ih sel h
      · refine ih (sel ++ [p]) ?_
        rename_i hnot
        simp only [List.map_append, List.map_cons, List.map_nil]
        rw [List.nodup_append]
        refine ⟨h, List.nodup_singleton _, ?_⟩
        intro z hz
        simp only [List.mem_singleton]
        intro hcontra
        exact hnot (hcontra ▸ hz)

theorem seedSelection_unfold {α : Type} (lv : α → String) (ordered : List α)
    (limit : ℕ) (L : String) (Ls : List String) (sel : List α) :
    seedSelection lv ordered limit (L :: Ls) sel =
      seedSelection lv ordered limit Ls
        (match ordered.filter (fun p => decide (lv p = L)) with
         | [] => sel
         | b :: _ => if sel.length < limit then sel ++ [b] else sel) := rfl

theorem seedSelection_extends {α : Type} (lv : α → String) (ordered : List α) (limit : ℕ) :
    ∀ (Ls : List String) (sel : List α), sel <+: seedSelection lv ordered limit Ls sel := by
  intro Ls
  induction Ls with
  | nil => intro sel; exact List.prefix_refl sel
  | cons L Ls ih =>
    intro sel
    rw [seedSelection_unfold]
    cases hb : ordered.filter (fun p => decide (lv p = L)) with
    | nil => exact ih sel
    | cons b bs =>
      by_cases hlen : sel.length < limit
      · simp only [hlen, if_true]
        exact List.prefix_append sel [b] |>.trans (ih (sel ++ [b]))
      · simp only [hlen, if_false]
        exact ih sel

theorem seedSelection_length {α : Type} (lv : α → String) (ordered : List α) (limit : ℕ) :
    ∀ (Ls : List String) (sel : List α), sel.length ≤ limit →
      (seedSelection lv ordered limit Ls sel).length ≤ limit := by
  intro Ls
  induction Ls with
  | nil => intro sel h; exact h
  | cons L Ls ih =>
    intro sel h
    rw [seedSelection_unfold]
    cases hb : ordered.filter (fun p => decide (lv p = L)) with
    | nil => exact ih sel h
    | cons b bs =>
      by_cases hlen : sel.length < limit
      · simp only [hlen, if_true]
        refine ih (sel ++ [b]) ?_
        simp only [List.length_append, List.length_singleton]
        omega
      · simp only [hlen, if_false]
        exact ih sel h

theorem seedSelection_mem {α : Type} (lv : α → String) (ordered : List α) (limit : ℕ) :
    ∀ (Ls : List String) (sel : List α) (x : α), x ∈ seedSelection lv ordered limit Ls sel →
      x ∈ sel ∨ (x ∈ ordered ∧ lv x ∈ Ls) := by
  intro Ls
  induction Ls with
  | nil => intro sel x hx; exact Or.inl hx
  | cons L Ls ih =>
    intro sel x hx
    rw [seedSelection_unfold] at hx
    cases hb : ordered.filter (fun p => decide (lv p = L)) with
    | nil =>
      rw [hb] at hx
      rcases ih sel x hx with h | ⟨h1, h2⟩
      · exact Or.inl h
      · exact Or.inr ⟨h1, List.mem_cons_of_mem L h2⟩
    | cons b bs =>
      rw [hb] at hx
      have hbmem : b ∈ ordered ∧ lv b = L := by
        have : b ∈ ordered.filter (fun p => decide (lv p = L)) := by
          rw [hb]; exact List.mem_cons_self b bs
        have h2 := List.mem_filter.mp this
        exact ⟨h2.1, of_decide_eq_true h2.2⟩
      by_cases hlen : sel.length < limit
      · simp only [hlen, if_true] at hx
        rcases ih (sel ++ [b]) x hx with h | ⟨h1, h2⟩
        · rcases List.mem_append.mp h with h | h
          · exact Or.inl h
          · simp only [List.mem_singleton] at h
            subst h
            exact Or.inr ⟨hbmem.1, hbmem.2 ▸ List.mem_cons_self _ _⟩
        · exact Or.inr ⟨h1, List.mem_cons_of_mem L h2⟩
      · simp only [hlen, if_false] at hx
        rcases ih sel x hx with h | ⟨h1, h2⟩
        · exact Or.inl h
        · exact Or.inr ⟨h1, List.mem_cons_of_mem L h2⟩

theorem seedSelection_nodup {α : Type} (lv : α → String) (ordered : List α)
    (limit : ℕ) (idf : α → ℕ)
    (hinj : ∀ x ∈ ordered, ∀ y ∈ ordered, idf x = idf y → x = y) :
    ∀ (Ls : List String) (sel : List α), Ls.Nodup → (∀ q ∈ sel, lv q ∉ Ls) →
      (∀ q ∈ sel, q ∈ ordered) → (sel.map idf).Nodup →
      ((seedSelection lv ordered limit Ls sel).map idf).Nodup ∧
        (∀ q ∈ seedSelection lv ordered limit Ls sel, q ∈ ordered) := by
  intro Ls
  induction Ls with
  | nil => intro sel _ _ hsub hnd; exact ⟨hnd, hsub⟩
  | cons L Ls ih =>
    intro sel hLs hlev hsub hnd
    rw [seedSelection_unfold]
    cases hb : ordered.filter (fun p => decide (lv p = L)) with
    | nil =>
      exact ih sel (List.Nodup.of_cons hLs)
        (fun q hq => fun hmem => hlev q hq (List.mem_cons_of_mem L hmem)) hsub hnd
    | cons b bs =>
      have hbmem : b ∈ ordered ∧ lv b = L := by
        have hmem : b ∈ ordered.filter (fun p => decide (lv p = L)) := by
          rw [hb]; exact List.mem_cons_self b bs
        have h2 := List.mem_filter.mp hmem
        exact ⟨h2.1, of_decide_eq_true h2.2⟩
      by_cases hlen : sel.length < limit
      · simp only [hlen, if_true]
        have hLnotLs : L ∉ Ls := (List.nodup_cons.mp hLs).1
        refine ih (sel ++ [b]) (List.Nodup.of_cons hLs) ?_ ?_ ?_
        · intro q hq
          rcases List.mem_append.mp hq with h | h
          · exact fun hmem => hlev q h (List.mem_cons_of_mem L hmem)
          · simp only [List.mem_singleton] at h
            subst h
            rw [hbmem.2]
            exact hLnotLs
        · intro q hq
          rcases List.mem_append.mp hq with h | h
          · exact hsub q h
          · simp only [List.mem_singleton] at h
            exact h ▸ hbmem.1
        · simp only [List.map_append, List.map_cons, List.map_nil]
          rw [List.nodup_append]
          refine ⟨hnd, List.nodup_singleton _, ?_⟩
          intro z hz
          simp only [List.mem_singleton]
          intro hzb
          obtain ⟨q, hq, hqz⟩ := List.mem_map.mp hz
          have : q = b := hinj q (hsub q hq) b hbmem.1 (hqz.trans hzb)
          have hqL : lv q = L := this ▸ hbmem.2
          exact hlev q hq (hqL ▸ List.mem_cons_self _ _)
      · simp only [hlen, if_false]
        exact ih sel (List.Nodup.of_cons hLs)
          (fun q hq => fun hmem => hlev q hq (List.mem_cons_of_mem L hmem)) hsub hnd

theorem seedSelection_covers {α : Type} (lv : α → String) (ordered : List α) (limit : ℕ) :
    ∀ (Ls : List String) (sel : List α), sel.length + Ls.length ≤ limit →
      (∀ L ∈ Ls, ordered.filter (fun p => decide (lv p = L)) ≠ []) →
      ∀ L ∈ Ls, ∃ x ∈ seedSelection lv ordered limit Ls sel, lv x = L := by
  intro Ls
  induction Ls with
  | nil => intro sel _ _ L hL; exact absurd hL (List.not_mem_nil L)
  | cons L0 Ls ih =>
    intro sel hcap hne L hL
    rw [seedSelection_unfold]
    cases hb : ordered.filter (fun p => decide (lv p = L0)) with
    | nil => exact absurd hb (hne L0 (List.mem_cons_self _ _))
    | cons b bs =>
      have hbL0 : lv b = L0 := by
        have hmem : b ∈ ordered.filter (fun p => decide (lv p = L0)) := by
          rw [hb]; exact List.mem_cons_self b bs
        exact of_decide_eq_true (List.mem_filter.mp hmem).2
      have hlen : sel.length < limit := by
        simp only [List.length_cons] at hcap
        omega
      simp only [hlen, if_true]
      rcases List.mem_cons.mp hL with hLeq | hLmem
      · subst hLeq
        have hbmem : b ∈ sel ++ [b] := List.mem_append_right sel (List.mem_singleton.mpr rfl)
        have hpre := seedSelection_extends lv ordered limit Ls (sel ++ [b])
        exact ⟨b, hpre.subset hbmem, hbL0⟩
      · refine ih (sel ++ [b]) ?_ (fun L2 hL2 => hne L2 (List.mem_cons_of_mem L0 hL2)) L hLmem
        simp only [List.length_append, List.length_singleton, List.length_cons,
          List.length_nil] at hcap ⊢
        omega

/-! ## Claim theorems -/

/-- C3 counterexample: with no keywords (`|K| = 0`) and `matchCount = 0`,
`matchCount >= |K|` holds, yet the selection classifier returns
`"single"`, not `"full"` — the claim's universal "Full whenever
`matchCount >= |K|`" fails on the degenerate empty keyword list. -/
theorem coverage_level_empty_counterexample :
    (([] : List String).length : ℤ) ≤ ((0 : ℕ) : ℤ) ∧
      coverage_level ((0 : ℕ) : ℤ) (([] : List String).length : ℤ) = "single" ∧
      coverage_level ((0 : ℕ) : ℤ) (([] : List String).length : ℤ) ≠ "full" := by
  refine ⟨by decide, by decide, by decide⟩

/-- C3 (amended): for every article and keyword list, the selection
classifier returns one of the four tiers Full, Near, Partial, Single; and
it returns Full whenever `matchCount >= |K|`, provided the keyword list is
nonempty or `matchCount >= 1` (in the degenerate case `|K| = 0` with
`matchCount = 0` it returns Single). -/
theorem coverage_level_tiers (p : Paper) (K : List String) :
    coverage_level (p.match_count : ℤ) (K.length : ℤ) ∈ coverageLevels ∧
      ((K.length : ℤ) ≤ (p.match_count : ℤ) → 1 ≤ K.length ∨ 1 ≤ p.match_count →
        coverage_level (p.match_count : ℤ) (K.length : ℤ) = "full") := by
  have hmax : max 0 ((p.match_count : ℕ) : ℤ) = (p.match_count : ℤ) :=
    max_eq_right (Int.ofNat_nonneg _)
  constructor
  · simp only [coverage_level, coverageLevels]
    split_ifs <;> simp
  · intro hge hpos
    simp only [coverage_level, hmax]
    split_ifs <;> first | rfl | omega

/-- Witness for `coverage_level_tiers` at `matchCount = 2`, `K = ["a", "b"]`. -/
theorem coverage_level_tiers_witness :
    coverage_level (twoMatchPaper.match_count : ℤ) ((["a", "b"] : List String).length : ℤ)
      = "full" :=
  (coverage_level_tiers twoMatchPaper ["a", "b"]).2 (by decide) (by decide)

/-- C9: the selection classifier (`cli.py`) and the reporting classifier
(`reporting.py`) agree on every article with `matchCount >= 1` against
`totalKeywords >= 1`; they disagree in general: whenever
`totalKeywords <= 0` or `matchCount = 0`, the reporting classifier returns
the fifth value `"unmatched"` while the selection classifier returns
`"full"` or `"single"`. -/
theorem coverage_classifiers_agree :
    (∀ mc tk : ℤ, 1 ≤ mc → 1 ≤ tk →
        coverage_level mc tk = reporting_coverage_level mc tk) ∧
      (∀ mc tk : ℤ, tk ≤ 0 ∨ mc = 0 →
        reporting_coverage_level mc tk = "unmatched" ∧
          (coverage_level mc tk = "full" ∨ coverage_level mc tk = "single")) := by
  constructor
  · intro mc tk hmc htk
    simp only [coverage_level, reporting_coverage_level]
    split_ifs <;> first | rfl | omega
  · intro mc tk h
    constructor
    · simp only [reporting_coverage_level]
      split_ifs <;> first | rfl | omega
    · simp only [coverage_level]
      split_ifs <;> first | exact Or.inl rfl | exact Or.inr rfl | omega

/-- Witness for `coverage_classifiers_agree`: agreement at
`matchCount = 2`, `totalKeywords = 3`, and disagreement at
`matchCount = 0`, `totalKeywords = 3`. -/
theorem coverage_classifiers_agree_witness :
    coverage_level 2 3 = reporting_coverage_level 2 3 ∧
      reporting_coverage_level 0 3 = "unmatched" ∧
        (coverage_level 0 3 = "full" ∨ coverage_level 0 3 = "single") :=
  ⟨coverage_classifiers_agree.1 2 3 (by decide) (by decide),
    coverage_classifiers_agree.2 0 3 (Or.inr rfl)⟩

theorem keepPaper_iff (days : ℤ) (p : Paper) :
    keepPaper days p = true ↔
      p.url ≠ "" ∧
        (¬ 0 < days ∨ p.age_days = none ∨ ∃ a, p.age_days = some a ∧ (a : ℤ) ≤ days) ∧
        1 ≤ p.match_count := by
  cases hage : p.age_days with
  | none =>
    simp only [keepPaper, hage, Bool.and_eq_true, Bool.not_eq_true', Bool.and_eq_false_iff,
      decide_eq_false_iff_not, decide_eq_true_eq, Bool.not_eq_true]
    constructor
    · rintro ⟨⟨h1, _⟩, h3⟩
      exact ⟨h1, Or.inr (Or.inl trivial), by omega⟩
    · rintro ⟨h1, _, h3⟩
      exact ⟨⟨h1, Or.inr trivial⟩, by omega⟩
  | some a =>
    simp only [keepPaper, hage, Bool.and_eq_true, Bool.not_eq_true', Bool.and_eq_false_iff,
      decide_eq_false_iff_not, decide_eq_true_eq, Bool.not_eq_true]
    constructor
    · rintro ⟨⟨h1, h2⟩, h3⟩
      refine ⟨h1, ?_, by omega⟩
      rcases h2 with h2 | h2
      · exact Or.inl (by omega)
      · exact Or.inr (Or.inr ⟨a, rfl, by omega⟩)
    · rintro ⟨h1, h2, h3⟩
      refine ⟨⟨h1, ?_⟩, by omega⟩
      rcases h2 with h2 | h2 | ⟨b, hb, hble⟩
      · exact Or.inl (by omega)
      · exact absurd h2 (by simp)
      · have : a = b := by injection hb
        exact Or.inr (by omega)

/-- C4: the post-fetch filter retains an article iff its `url` is
nonempty, the requested day-window is not positive or the age is unknown
or the age does not exceed the window, and at least one keyword matched;
with `days = 0` no article is dropped for age; and every article reaching
sorting (hence classification and selection) has `matchCount >= 1`. -/
theorem post_filter_spec :
    (∀ (days : ℤ) (papers : List Paper) (p : Paper),
        p ∈ post_filter days papers ↔
          p ∈ papers ∧ p.url ≠ "" ∧
            (¬ 0 < days ∨ p.age_days = none ∨ ∃ a, p.age_days = some a ∧ (a : ℤ) ≤ days) ∧
            1 ≤ p.match_count) ∧
      (∀ papers : List Paper,
        post_filter 0 papers =
          papers.filter (fun p => !(decide (p.url = "")) && !(decide (p.match_count = 0)))) ∧
      (∀ (days : ℤ) (papers : List Paper) (strategy : SortStrategy) (p : Paper),
        p ∈ sort_papers (post_filter days papers) strategy → 1 ≤ p.match_count) := by
  refine ⟨?_, ?_, ?_⟩
  · intro days papers p
    rw [post_filter, List.mem_filter, keepPaper_iff]
  · intro papers
    rw [post_filter]
    refine List.filter_congr ?_
    intro p _
    cases hage : p.age_days <;>
      simp [keepPaper, hage]
  · intro days papers strategy p hmem
    have hperm := List.mergeSort_perm (post_filter days papers) (paperLe strategy)
    have : p ∈ post_filter days papers := hperm.mem_iff.mp hmem
    rw [post_filter, List.mem_filter, keepPaper_iff] at this
    exact this.2.2.2

/-- Witness for `post_filter_spec`: a surviving article at `days = 5`,
the `days = 0` filter shape on a singleton list, and the match-count
bound for the article reaching the sort. -/
theorem post_filter_spec_witness :
    (keptPaper ∈ post_filter 5 [keptPaper] ↔
      keptPaper ∈ [keptPaper] ∧ keptPaper.url ≠ "" ∧
        (¬ (0 : ℤ) < 5 ∨ keptPaper.age_days = none ∨
          ∃ a, keptPaper.age_days = some a ∧ (a : ℤ) ≤ 5) ∧
        1 ≤ keptPaper.match_count) ∧
      1 ≤ keptPaper.match_count :=
  ⟨post_filter_spec.1 5 [keptPaper] keptPaper,
    post_filter_spec.2.2 5 [keptPaper] SortStrategy.score keptPaper
      (by
        rw [show post_filter 5 [keptPaper] = [keptPaper] from by decide,
          sort_papers, List.mergeSort_singleton]
        exact List.mem_singleton.mpr rfl)⟩

/-- C7 counterexample: the keyword `"a\tb"` survives stripping, contains a
whitespace character (a tab), yet `_build_query` emits it as a bare term:
the quoting test is `" " in term`, which checks only for the space
character, so the claimed quoted phrase term is absent. -/
theorem quoted_terms_tab_counterexample :
    pyStrip "a\tb" = "a\tb" ∧ ("a\tb").data.any Char.isWhitespace = true ∧
      quotedTerms ["a\tb"] = ["a\tb"] ∧
      ("\"" ++ "a\tb" ++ "\"") ∉ quotedTerms ["a\tb"] := by
  refine ⟨by decide, by decide, by decide, by decide⟩

/-- C7 (amended): every keyword that is nonempty after stripping
contributes a term: wrapped in double quotes when the stripped keyword
contains a space character, bare otherwise (the code tests `" " in term`,
so a space — not arbitrary whitespace — triggers quoting). -/
theorem quoted_terms_spec (keywords : List String) (kw : String)
    (hmem : kw ∈ keywords) (hne : pyStrip kw ≠ "") :
    (' ' ∈ (pyStrip kw).data → ("\"" ++ pyStrip kw ++ "\"") ∈ quotedTerms keywords) ∧
      (' ' ∉ (pyStrip kw).data → pyStrip kw ∈ quotedTerms keywords) := by
  constructor
  · intro hsp
    refine List.mem_filterMap.mpr ⟨kw, hmem, ?_⟩
    simp [hne, hsp]
  · intro hsp
    refine List.mem_filterMap.mpr ⟨kw, hmem, ?_⟩
    simp [hne, hsp]

/-- Witness for `quoted_terms_spec`: `"deep learning"` is quoted,
`"metagenomics"` stays bare. -/
theorem quoted_terms_spec_witness :
    ("\"" ++ pyStrip "deep learning" ++ "\"") ∈ quotedTerms ["deep learning", "metagenomics"] ∧
      pyStrip "metagenomics" ∈ quotedTerms ["deep learning", "metagenomics"] :=
  ⟨(quoted_terms_spec ["deep learning", "metagenomics"] "deep learning"
      (by decide) (by decide)).1 (by decide),
    (quoted_terms_spec ["deep learning", "metagenomics"] "metagenomics"
      (by decide) (by decide)).2 (by decide)⟩

theorem quotedTerms_eq_nil_iff (keywords : List String) :
    quotedTerms keywords = [] ↔ ∀ kw ∈ keywords, pyStrip kw = "" := by
  rw [quotedTerms, List.filterMap_eq_nil_iff]
  constructor
  · intro h kw hkw
    have := h kw hkw
    by_cases hs : pyStrip kw = ""
    · exact hs
    · simp [hs] at this
      split at this <;> simp_all
  · intro h kw hkw
    simp [h kw hkw]

/-- C8: `_build_query` fails with the `InvalidQuery` error iff every
supplied keyword is empty after stripping; when at least one keyword
survives stripping it returns a query expression and raises no error. -/
theorem build_query_error_iff :
    (∀ (j : JournalConfig) (kws : List String) (db today : ℤ),
        (∃ e, build_query j kws db today = .error e) ↔ ∀ kw ∈ kws, pyStrip kw = "") ∧
      (∀ (j : JournalConfig) (kws : List String) (db today : ℤ),
        (∃ kw ∈ kws, pyStrip kw ≠ "") → ∃ q, build_query j kws db today = .ok q) := by
  have hmain : ∀ (j : JournalConfig) (kws : List String) (db today : ℤ),
      (∃ e, build_query j kws db today = .error e) ↔ ∀ kw ∈ kws, pyStrip kw = "" := by
    intro j kws db today
    rw [← quotedTerms_eq_nil_iff]
    cases hq : quotedTerms kws with
    | nil => simp [build_query, hq]
    | cons t ts =>
      cases ts with
      | nil => simp [build_query, hq]
      | cons t2 rest => simp [build_query, hq]
  refine ⟨hmain, ?_⟩
  intro j kws db today ⟨kw, hkw, hne⟩
  cases hq : build_query j kws db today with
  | ok q => exact ⟨q, rfl⟩
  | error e =>
    have := (hmain j kws db today).mp ⟨e, hq⟩
    exact absurd (this kw hkw) hne

/-- Witness for `build_query_error_iff`: the error-free case at a concrete
journal and keyword list, and the error case at an all-blank list. -/
theorem build_query_error_iff_witness :
    (∃ q, build_query { key := "nat", name := "Nature", container_title := "Nature" }
        ["metagenomics"] 0 0 = .ok q) ∧
      (∃ e, build_query { key := "nat", name := "Nature", container_title := "Nature" }
        ["  ", ""] 7 0 = .error e) :=
  ⟨build_query_error_iff.2 { key := "nat", name := "Nature", container_title := "Nature" }
      ["metagenomics"] 0 0 ⟨"metagenomics", by decide, by decide⟩,
    (build_query_error_iff.1 { key := "nat", name := "Nature", container_title := "Nature" }
      ["  ", ""] 7 0).mpr (by decide)⟩


/-- C2: scoring the scenario article — keyword `"metagenomics"`, title
`"Metagenomics of the gut"`, empty summary, no source hint, published
exactly 10 whole days before the reference instant, recency window 30 —
yields `relevanceScore = 16.86`, `ageDays = 10` and `matchCount = 1`:
one title hit and one body hit give `6.0 + 2.5`, one matched keyword adds
`4.0`, freshness adds `(20/30) * 6.0`, decay adds `(1/11) * 4.0`, and the
total rounds to `16.86`. -/
theorem compute_relevance_scenario :
    (compute_relevance gutPaper ["metagenomics"] 30 gutReference).relevance = 16.86 ∧
      (compute_relevance gutPaper ["metagenomics"] 30 gutReference).age_days = some 10 ∧
      (compute_relevance gutPaper ["metagenomics"] 30 gutReference).match_count = 1 := by
  have hhits : (["metagenomics"] : List String).filterMap
      (keywordHits (pyLower gutPaper.title)
        (pyLower (gutPaper.title ++ " " ++ gutPaper.summary.getD ""))) = [(1, 1)] := by
    decide
  have hage : ageDaysOf gutPaper.published gutReference = some 10 := by decide
  refine ⟨?_, ?_, ?_⟩
  · have hss : gutPaper.source_score = none := rfl
    simp only [compute_relevance, hhits, hage, hss]
    rw [rawScore_eq]
    norm_num [hitScore, matchedHit, sourcePart, recencyPart,
      List.filter, round2, round_eq]
  · simp only [compute_relevance, hage]
  · simp only [compute_relevance, hhits]
    decide

theorem compute_relevance_relevance (paper : Paper) (keywords : List String) (w r : ℤ) :
    (compute_relevance paper keywords w r).relevance =
      round2 (rawScore
        (keywords.filterMap (keywordHits (pyLower paper.title)
          (pyLower (paper.title ++ " " ++ paper.summary.getD ""))))
        paper.source_score (ageDaysOf paper.published r) w) := rfl

theorem round2_lt_add (x : ℚ) (n : ℤ) (hn : 0 < n) :
    round2 x < round2 (x + (n : ℚ) / 100) := by
  rw [round2_add_cent]
  have h1 : (0 : ℚ) < (n : ℚ) := by exact_mod_cast hn
  linarith

/-- C6: the relevance score is strictly monotone in the hit counts of any
one keyword, even after rounding to two decimals: with the hit pairs of
the other keywords, the source hint, the age and the recency window all
fixed, raising one keyword's `title_hits` (or `body_hits`) strictly
raises the rounded score.  `compute_relevance` computes `relevance` as
`round2 (rawScore hits ...)`, so this is monotonicity of the returned
`relevanceScore` in the occurrence counts. -/
theorem relevance_hits_monotone (pre post : List (ℕ × ℕ)) (t b tp bp : ℕ)
    (ss : Option ℚ) (ad : Option ℕ) (w : ℤ)
    (h : (t < tp ∧ b = bp) ∨ (t = tp ∧ b < bp)) :
    round2 (rawScore (pre ++ (t, b) :: post) ss ad w)
      < round2 (rawScore (pre ++ (tp, bp) :: post) ss ad w) := by
  have hmono : matchedHit (t, b) = true → matchedHit (tp, bp) = true := by
    simp only [matchedHit, Bool.or_eq_true, decide_eq_true_eq]
    rcases h with ⟨h1, h2⟩ | ⟨h1, h2⟩ <;> omega
  have hEq : rawScore (pre ++ (tp, bp) :: post) ss ad w
      = rawScore (pre ++ (t, b) :: post) ss ad w +
        ((600 * ((tp : ℤ) - (t : ℤ)) + 250 * ((bp : ℤ) - (b : ℤ)) +
          400 * ((if matchedHit (tp, bp) then 1 else 0) -
            (if matchedHit (t, b) then 1 else 0)) : ℤ) : ℚ) / 100 := by
    rw [rawScore_update pre post (tp, bp) (t, b) ss ad w, hitScore_eq, hitScore_eq]
    by_cases hx : matchedHit (tp, bp) <;> by_cases hy : matchedHit (t, b) <;>
      simp only [hx, hy, if_true, if_false] <;> push_cast <;> ring
  rw [hEq]
  refine round2_lt_add _ _ ?_
  by_cases hx : matchedHit (tp, bp) <;> by_cases hy : matchedHit (t, b)
  · simp only [hx, hy, if_true]
    rcases h with ⟨h1, h2⟩ | ⟨h1, h2⟩ <;> omega
  · simp only [hx, hy, if_true, if_false]
    rcases h with ⟨h1, h2⟩ | ⟨h1, h2⟩ <;> omega
  · exact absurd (hmono hy) hx
  · simp only [hx, hy, if_false]
    rcases h with ⟨h1, h2⟩ | ⟨h1, h2⟩ <;> omega

/-- Witness for `relevance_hits_monotone`: raising `title_hits` from 0
to 1 for a single keyword strictly raises the rounded score. -/
theorem relevance_hits_monotone_witness :
    round2 (rawScore ([] ++ (0, 1) :: []) none none 30)
      < round2 (rawScore ([] ++ (1, 1) :: []) none none 30) :=
  relevance_hits_monotone [] [] 0 1 1 1 none none 30 (Or.inl ⟨by decide, rfl⟩)

/-- C1: the selection returns at most `limit` articles under both
coverage policies; and under the diversified policy, if each of the four
coverage tiers has at least one candidate and `limit >= 4`, the selected
list contains at least one article of each tier. -/
theorem selection_bound_and_diversity (idf : Paper → ℕ) (tk : ℤ)
    (ordered : List Paper) (limit : ℕ) (hlim : 1 ≤ limit) :
    (select_strict (fun p => coverage_level (p.match_count : ℤ) tk) ordered limit).length
        ≤ limit ∧
      (select_diversified idf (fun p => coverage_level (p.match_count : ℤ) tk)
          ordered limit).length ≤ limit ∧
      (4 ≤ limit →
        (∀ L ∈ coverageLevels, ∃ p ∈ ordered, coverage_level (p.match_count : ℤ) tk = L) →
        ∀ L ∈ coverageLevels,
          ∃ p ∈ select_diversified idf (fun p => coverage_level (p.match_count : ℤ) tk)
            ordered limit, coverage_level (p.match_count : ℤ) tk = L) := by
  set lv : Paper → String := fun p => coverage_level (p.match_count : ℤ) tk with hlv
  refine ⟨?_, ?_, ?_⟩
  · exact le_trans (List.length_take_le limit _) le_rfl
  · refine fillSelection_length idf limit ordered _ ?_
    refine seedSelection_length lv ordered limit coverageLevels [] ?_
    simp
  · intro hlim4 hcov L hL
    have hne : ∀ L2 ∈ coverageLevels, ordered.filter (fun p => decide (lv p = L2)) ≠ [] := by
      intro L2 hL2
      obtain ⟨p, hp, hplv⟩ := hcov L2 hL2
      have : p ∈ ordered.filter (fun p => decide (lv p = L2)) :=
        List.mem_filter.mpr ⟨hp, decide_eq_true hplv⟩
      exact List.ne_nil_of_mem this
    have hcap : ([] : List Paper).length + coverageLevels.length ≤ limit := by
      simpa [coverageLevels] using hlim4
    obtain ⟨x, hxmem, hxlv⟩ :=
      seedSelection_covers lv ordered limit coverageLevels [] hcap hne L hL
    refine ⟨x, ?_, hxlv⟩
    exact (fillSelection_extends idf limit ordered _).subset hxmem

/-- Witness for `selection_bound_and_diversity` at four single-tier
candidates, four keywords and `limit = 4`. -/
theorem selection_bound_and_diversity_witness :
    (select_diversified (fun _ => 0)
        (fun p => coverage_level (p.match_count : ℤ) 4) tierPapers 4).length ≤ 4 ∧
      ∀ L ∈ coverageLevels,
        ∃ p ∈ select_diversified (fun _ => 0)
          (fun p => coverage_level (p.match_count : ℤ) 4) tierPapers 4,
          coverage_level (p.match_count : ℤ) 4 = L := by
  have h := selection_bound_and_diversity (fun _ => 0) 4 tierPapers 4 (by decide)
  exact ⟨h.2.1, h.2.2 (by decide) (by decide)⟩

/-- C10: under both coverage policies, every selected article comes from
the candidate list, and no candidate (identified by its object identity
`idf`) is selected twice, given — as holds for Python object ids along a
list of distinct objects — that the identities along the candidate list
are pairwise distinct. -/
theorem selection_subset_and_nodup (idf : Paper → ℕ) (tk : ℤ)
    (ordered : List Paper) (limit : ℕ)
    (hids : (ordered.map idf).Nodup) :
    ((∀ p ∈ select_strict (fun p => coverage_level (p.match_count : ℤ) tk) ordered limit,
        p ∈ ordered) ∧
      ((select_strict (fun p => coverage_level (p.match_count : ℤ) tk) ordered limit).map
        idf).Nodup) ∧
      ((∀ p ∈ select_diversified idf (fun p => coverage_level (p.match_count : ℤ) tk)
          ordered limit, p ∈ ordered) ∧
        ((select_diversified idf (fun p => coverage_level (p.match_count : ℤ) tk) ordered
          limit).map idf).Nodup) := by
  set lv : Paper → String := fun p => coverage_level (p.match_count : ℤ) tk with hlv
  have hinj : ∀ x ∈ ordered, ∀ y ∈ ordered, idf x = idf y → x = y :=
    fun x hx y hy hxy => List.inj_on_of_nodup_map hids hx hy hxy
  constructor
  · have hsub : List.Sublist (select_strict lv ordered limit) ordered :=
      List.Sublist.trans
        (List.take_sublist limit (ordered.filter (fun p => decide (lv p = "full"))))
        (List.filter_sublist ordered)
    exact ⟨fun p hp => hsub.subset hp, (hsub.map idf).nodup hids⟩
  · have hseed := seedSelection_nodup lv ordered limit idf hinj coverageLevels []
      (by decide) (by simp) (by simp) (by simp)
    constructor
    · intro p hp
      rcases fillSelection_mem idf limit ordered _ p hp with h | h
      · exact hseed.2 p h
      · exact h
    · exact fillSelection_nodup idf limit ordered _ hseed.1

/-- Witness for `selection_subset_and_nodup` with `idf` the match count
on two candidates with distinct identities. -/
theorem selection_subset_and_nodup_witness :
    ((select_diversified (fun p => p.match_count)
        (fun p => coverage_level (p.match_count : ℤ) 2) [twoMatchPaper, keptPaper] 3).map
      (fun p => p.match_count)).Nodup :=
  (selection_subset_and_nodup (fun p => p.match_count) 2 [twoMatchPaper, keptPaper] 3
    (by decide)).2.2

theorem paperLe_score_trans (a b c : Paper) (hab : paperLe SortStrategy.score a b = true)
    (hbc : paperLe SortStrategy.score b c = true) : paperLe SortStrategy.score a c = true := by
  simp only [paperLe, decide_eq_true_eq] at hab hbc ⊢
  exact le_trans hab hbc

theorem paperLe_score_total (a b : Paper) :
    (paperLe SortStrategy.score a b || paperLe SortStrategy.score b a) = true := by
  simp only [paperLe, Bool.or_eq_true, decide_eq_true_eq]
  exact le_total (scoreKey a) (scoreKey b)

theorem scoreKey_lt_of_age_lt (p q : Paper) (hrel : p.relevance = q.relevance)
    (hage : age_value p < age_value q) : scoreKey p < scoreKey q := by
  unfold scoreKey
  rw [hrel]
  rw [Prod.Lex.lt_iff]
  right
  refine ⟨rfl, ?_⟩
  rw [Prod.Lex.lt_iff]
  exact Or.inl hage

/-- C5 (amended): under the `score` strategy, among two sorted articles
with equal `relevance`, one with a known age and one with an unknown age,
the known-age article is placed strictly before the unknown-age one —
provided the known age is below `10 ** 6`, the sentinel `_sort_papers`
substitutes for an unknown age. -/
theorem by_score_known_age_before_unknown (papers : List Paper) (p q : Paper) (a : ℕ)
    (hrel : p.relevance = q.relevance) (hpa : p.age_days = some a) (ha : a < 10 ^ 6)
    (hqa : q.age_days = none) (i j : ℕ)
    (hgi : (sort_papers papers SortStrategy.score).get? i = some p)
    (hgj : (sort_papers papers SortStrategy.score).get? j = some q) :
    i < j := by
  obtain ⟨hi, hgi⟩ := List.get?_eq_some.mp hgi
  obtain ⟨hj, hgj⟩ := List.get?_eq_some.mp hgj
  have hklt : scoreKey p < scoreKey q := by
    refine scoreKey_lt_of_age_lt p q hrel ?_
    unfold age_value
    rw [hpa, hqa]
    exact ha
  have hsorted : List.Pairwise (fun a b => paperLe SortStrategy.score a b = true)
      (sort_papers papers SortStrategy.score) :=
    List.sorted_mergeSort paperLe_score_trans paperLe_score_total papers
  rcases lt_trichotomy i j with h | h | h
  · exact h
  · exfalso
    subst h
    rw [hgi] at hgj
    rw [hgj, hqa] at hpa
    exact Option.noConfusion hpa
  · exfalso
    have hpair := List.pairwise_iff_get.mp hsorted ⟨j, hj⟩ ⟨i, hi⟩ h
    rw [hgi, hgj] at hpair
    simp only [paperLe, decide_eq_true_eq] at hpair
    exact absurd hpair (not_le.mpr hklt)

/-- Witness for `by_score_known_age_before_unknown`: a 5-day-old article
and an undated article of equal relevance sort with the known age first. -/
theorem by_score_known_age_before_unknown_witness :
    sort_papers [agedPaper, keptPaper] SortStrategy.score = [agedPaper, keptPaper] ∧
      (0 : ℕ) < 1 := by
  have hle : paperLe SortStrategy.score agedPaper keptPaper = true := by decide
  have hsort : sort_papers [agedPaper, keptPaper] SortStrategy.score
      = [agedPaper, keptPaper] := by
    rw [sort_papers, mergeSort_pair, hle, if_pos rfl]
  refine ⟨hsort, ?_⟩
  refine by_score_known_age_before_unknown [agedPaper, keptPaper] agedPaper keptPaper 5
    rfl rfl (by decide) rfl 0 1 ?_ ?_
  · rw [hsort]; rfl
  · rw [hsort]; rfl

/-- C5 counterexample: the claim as stated fails because `_sort_papers`
substitutes the sentinel `10 ** 6` for an unknown age.  An article
published `10 ** 6 + 1` whole days before the reference instant (ages up
to about 3.65 million days are reachable, Python dates spanning years
1–9999) is scored with `age_days = 1000001 > 10 ** 6` and equal relevance
to an undated article, yet the sort places the unknown-age article first:
the known-age article is NOT placed before the unknown-age one. -/
theorem by_score_sentinel_counterexample :
    (compute_relevance veryOldPaper [] 30 farReference).relevance
        = (compute_relevance undatedPaper [] 30 farReference).relevance ∧
      (compute_relevance veryOldPaper [] 30 farReference).age_days = some 1000001 ∧
      (compute_relevance undatedPaper [] 30 farReference).age_days = none ∧
      sort_papers [compute_relevance veryOldPaper [] 30 farReference,
          compute_relevance undatedPaper [] 30 farReference] SortStrategy.score
        = [compute_relevance undatedPaper [] 30 farReference,
            compute_relevance veryOldPaper [] 30 farReference] := by
  have hage1 : (compute_relevance veryOldPaper [] 30 farReference).age_days
      = some 1000001 := by decide
  have hage2 : (compute_relevance undatedPaper [] 30 farReference).age_days = none := by
    decide
  have hrel1 : (compute_relevance veryOldPaper [] 30 farReference).relevance = 0 := by
    rw [compute_relevance_relevance]
    rw [show ageDaysOf veryOldPaper.published farReference = some 1000001 from by decide]
    rw [show veryOldPaper.source_score = none from rfl]
    norm_num [rawScore_eq, sourcePart, recencyPart, round2, round_eq,
      min_def, max_def]
  have hrel2 : (compute_relevance undatedPaper [] 30 farReference).relevance = 0 := by
    rw [compute_relevance_relevance]
    rw [show ageDaysOf undatedPaper.published farReference = none from rfl]
    rw [show undatedPaper.source_score = none from rfl]
    norm_num [rawScore_eq, sourcePart, recencyPart, round2, round_eq]
  have hklt : scoreKey (compute_relevance undatedPaper [] 30 farReference)
      < scoreKey (compute_relevance veryOldPaper [] 30 farReference) := by
    refine scoreKey_lt_of_age_lt _ _ (hrel2.trans hrel1.symm) ?_
    unfold age_value
    rw [hage1, hage2]
    norm_num
  have hle : paperLe SortStrategy.score (compute_relevance veryOldPaper [] 30 farReference)
      (compute_relevance undatedPaper [] 30 farReference) = false := by
    simp only [paperLe, decide_eq_false_iff_not]
    exact not_le.mpr hklt
  refine ⟨hrel1.trans hrel2.symm, hage1, hage2, ?_⟩
  rw [sort_papers, mergeSort_pair, hle]
  simp
